import Mathlib

/-!
Verification of the reconciliation engine of spirit-tokio
(`spirit-tokio/src/lib.rs`) and of the singleton registration helpers of
spirit (`src/helpers.rs`), as a shallow embedding.

The Rust generics `SubCfg`, `ExtraCfg`, `Resource` become type parameters.
Every `oneshot::channel()` call performed by the validator allocates a pair
of channel identifiers from a counter threaded through the pass, and an
`Arc<RemoteDrop>` handle is identified with the pair of channel numbers it
owns; cloning an `Arc` yields the same value, so sharing of handles between
consecutive caches is observable as equality of these numbers.

The teardown handshake between `RemoteDrop::drop` and the instance task
spawned by the installer is modelled as a small-step interleaving of the two
program counters together with the state of the two one-shot channels.
-/

set_option linter.unusedSectionVars false

namespace SpiritVerify

/-! ## The teardown handshake (`RemoteDrop::drop`, lib.rs 111-120, and the
wrapped instance task built by `installer`, lib.rs 202-215) -/

/-- Program counter of `RemoteDrop::drop`: send the drop request, then block
on `drop_confirmed.wait()`, then return. -/
inductive HandlePc where
  | hStart
  | hReqSent
  | hDone
deriving DecidableEq, Repr

/-- Program counter of the wrapped instance task: race the unit of work
against `drop_req` via `select`, then in the `then` combinator drop the
original future first and only then send the confirmation. -/
inductive TaskPc where
  | racing
  | selected
  | origDropped
  | confirmDone
deriving DecidableEq, Repr

/-- Why the `select` finished: the unit of work completed, it failed (the
error is logged and swallowed by `map_err`), or the drop request won the
race. -/
inductive FinishReason where
  | workCompleted
  | workFailed
  | dropSignal
deriving DecidableEq, Repr

/-- Joint state of one `RemoteDrop` handle and its instance task:
the two program counters, whether the drop-request one-shot channel holds a
value, whether the confirmation one-shot channel holds a value, and whether
the receiving half of the confirmation channel is still alive. -/
structure HsState where
  handle : HandlePc
  task : TaskPc
  reqSent : Bool
  confirmSent : Bool
  confirmRecvAlive : Bool
deriving DecidableEq, Repr

/-- One interleaved step of the destructing context and the instance task.
`sendConfirm` puts a value into the confirmation channel only when its
receiver is still alive; otherwise the send is a no-op and the task proceeds
(`confirm_drop.send(())` followed by `map_err` discarding the error). The
drop-signal branch of the race can only fire once the request was sent. -/
inductive HsStep : HsState → HsState → Prop where
  | sendReq {task rq cs ra} :
      HsStep ⟨.hStart, task, rq, cs, ra⟩ ⟨.hReqSent, task, true, cs, ra⟩
  | waitConfirm {task rq ra} :
      HsStep ⟨.hReqSent, task, rq, true, ra⟩ ⟨.hDone, task, rq, true, ra⟩
  | finishWork {h rq cs ra} (r : FinishReason) (hr : r = .dropSignal → rq = true) :
      HsStep ⟨h, .racing, rq, cs, ra⟩ ⟨h, .selected, rq, cs, ra⟩
  | dropOrig {h rq cs ra} :
      HsStep ⟨h, .selected, rq, cs, ra⟩ ⟨h, .origDropped, rq, cs, ra⟩
  | sendConfirm {h rq cs ra} :
      HsStep ⟨h, .origDropped, rq, cs, ra⟩ ⟨h, .confirmDone, rq, ra, ra⟩

/-- Initial state: the handle is about to be destroyed, the task is racing,
no channel holds a value. -/
def hsInit (alive : Bool) : HsState := ⟨.hStart, .racing, false, false, alive⟩

/-- Reachability from the initial state by interleaved steps. -/
def HsReach (alive : Bool) (st : HsState) : Prop :=
  Relation.ReflTransGen HsStep (hsInit alive) st

/-- The inductive invariant of the handshake. -/
def HsInv (st : HsState) : Prop :=
  (st.confirmSent = true → st.task = .confirmDone ∧ st.confirmRecvAlive = true)
  ∧ (st.handle = .hDone → st.confirmSent = true)
  ∧ ((st.handle = .hReqSent ∨ st.handle = .hDone) → st.reqSent = true)

lemma hsInv_of_reach (alive : Bool) (st : HsState) (h : HsReach alive st) :
    HsInv st := by
  induction h with
  | refl => simp [HsInv, hsInit]
  | tail _ step ih =>
    cases step with
    | sendReq =>
      exact ⟨ih.1,
        fun hd => absurd hd (show ¬(HandlePc.hReqSent = HandlePc.hDone) by decide),
        fun _ => rfl⟩
    | waitConfirm =>
      exact ⟨fun _ => ih.1 rfl, fun _ => rfl, fun _ => ih.2.2 (Or.inl rfl)⟩
    | finishWork r hr =>
      exact ⟨fun hcs =>
          absurd (ih.1 hcs).1 (show ¬(TaskPc.racing = TaskPc.confirmDone) by decide),
        ih.2.1, ih.2.2⟩
    | dropOrig =>
      exact ⟨fun hcs =>
          absurd (ih.1 hcs).1 (show ¬(TaskPc.selected = TaskPc.confirmDone) by decide),
        ih.2.1, ih.2.2⟩
    | sendConfirm =>
      exact ⟨fun hra => ⟨rfl, hra⟩,
        fun hd => absurd (ih.1 (ih.2.1 hd)).1
          (show ¬(TaskPc.origDropped = TaskPc.confirmDone) by decide),
        ih.2.2⟩

/-- Claim C1: destroying a `RemoteDrop` handle first sends the drop request
and then blocks until the termination confirmation is received (so in every
reachable state in which the destructor has returned, the confirmation was
sent, hence the instance task had already dropped the unit-of-work future);
the task sends the confirmation only after the future was dropped, whichever
way the race finished; and if the confirmation receiver is gone, the send is
a no-op: the task still runs to completion without ever filling the
confirmation channel. -/
theorem c1_teardown_handshake :
    (∀ (alive : Bool) (st : HsState), HsReach alive st →
      ((st.handle = .hReqSent ∨ st.handle = .hDone) → st.reqSent = true) ∧
      (st.handle = .hDone → st.confirmSent = true ∧ st.task = .confirmDone) ∧
      (st.confirmSent = true → st.task = .confirmDone))
    ∧ HsReach false ⟨.hStart, .confirmDone, false, false, false⟩ := by
  constructor
  · intro alive st h
    have inv := hsInv_of_reach alive st h
    exact ⟨inv.2.2, fun hd => ⟨inv.2.1 hd, (inv.1 (inv.2.1 hd)).1⟩, fun hc => (inv.1 hc).1⟩
  · exact Relation.ReflTransGen.tail
      (Relation.ReflTransGen.tail
        (Relation.ReflTransGen.single
          (HsStep.finishWork .workCompleted
            (fun h => absurd h (show ¬(FinishReason.workCompleted = .dropSignal) by decide))))
        HsStep.dropOrig)
      HsStep.sendConfirm

/-- Witness for C1: the state reached from `hsInit true` by the single step
that sends the drop request satisfies the guarantees. -/
theorem c1_teardown_handshake_witness :
    (((⟨.hReqSent, .racing, true, false, true⟩ : HsState).handle = .hReqSent ∨
        (⟨.hReqSent, .racing, true, false, true⟩ : HsState).handle = .hDone) →
      (⟨.hReqSent, .racing, true, false, true⟩ : HsState).reqSent = true) ∧
    ((⟨.hReqSent, .racing, true, false, true⟩ : HsState).handle = .hDone →
      (⟨.hReqSent, .racing, true, false, true⟩ : HsState).confirmSent = true ∧
      (⟨.hReqSent, .racing, true, false, true⟩ : HsState).task = .confirmDone) ∧
    ((⟨.hReqSent, .racing, true, false, true⟩ : HsState).confirmSent = true →
      (⟨.hReqSent, .racing, true, false, true⟩ : HsState).task = .confirmDone) :=
  c1_teardown_handshake.1 true ⟨.hReqSent, .racing, true, false, true⟩
    (Relation.ReflTransGen.single HsStep.sendReq)

/-! ## The reconciler data model (`Task::apply`, lib.rs 163-328) -/

universe u v w

/-- A diagnostic contributed to the pass's `ValidationResults`: either a
warning (as produced by `Scale::scaled`, lib.rs 432-433) or the error
recorded for a failed `build` (lib.rs 248-252; the code renders the helper
name, the descriptor and the build error into a message string — we keep the
descriptor and the build-error text themselves, so that the binding of the
diagnostic to its descriptor stays visible). -/
inductive Diag (SubCfg : Type u) where
  | warning (msg : String)
  | buildError (sub : SubCfg) (msg : String)
deriving DecidableEq

/-- A `RemoteDrop` handle (lib.rs 106-109): the sending half of the
drop-request one-shot channel plus the receiving half of the confirmation
one-shot channel, each identified by its allocation number.  An `Arc` clone
of a handle is the same value. -/
structure RemoteDrop where
  request_drop : Nat
  drop_confirmed : Nat
deriving DecidableEq, Repr

/-- An `Install` request (lib.rs 172-178): the cloned shared resource, the
receiving half of the drop-request channel, the sending half of the
confirmation channel, the descriptor (whose debug rendering the code stores
as the `cfg` string) and the extra config. -/
structure Install (SubCfg : Type u) (ExtraCfg : Type v) (Resource : Type w) where
  resource : Resource
  drop_req : Nat
  confirm_drop : Nat
  cfg : SubCfg
  extra_conf : ExtraCfg
deriving DecidableEq

/-- A cache entry (lib.rs 179-185). -/
structure Cache (SubCfg : Type u) (ExtraCfg : Type v) (Resource : Type w) where
  sub_cfg : SubCfg
  extra_cfg : ExtraCfg
  resource : Resource
  remote : List RemoteDrop
deriving DecidableEq

/-- One element of the iterator returned by `extract` (lib.rs 225-226):
descriptor, extra config, desired scale and the per-item extraction
diagnostics. -/
structure ExtractedItem (SubCfg : Type u) (ExtraCfg : Type v) where
  sub : SubCfg
  extra : ExtraCfg
  scale : Nat
  sub_results : List (Diag SubCfg)
deriving DecidableEq

/-- The accumulator of one reconciliation pass: `results`, `new_cache` and
`to_send` (lib.rs 221-224), plus the next free one-shot channel number
(modelling the successive `oneshot::channel()` allocations). -/
structure PassState (SubCfg : Type u) (ExtraCfg : Type v) (Resource : Type w) where
  results : List (Diag SubCfg)
  new_cache : List (Cache SubCfg ExtraCfg Resource)
  to_send : List (Install SubCfg ExtraCfg Resource)
  counter : Nat
deriving DecidableEq

variable {SubCfg : Type u} {ExtraCfg : Type v} {Resource : Type w}
variable [DecidableEq SubCfg] [DecidableEq ExtraCfg]

/-- The scale-up loop (lib.rs 284-298): while the instance list is shorter
than the desired scale, allocate a fresh one-shot channel pair, queue an
`Install` request carrying a clone of the shared resource and the new extra
config, and push the matching handle. -/
def scaleUpLoop (resource : Resource) (sub : SubCfg) (extra : ExtraCfg) (scale : Nat)
    (remote : List RemoteDrop) (to_send : List (Install SubCfg ExtraCfg Resource))
    (counter : Nat) :
    List RemoteDrop × List (Install SubCfg ExtraCfg Resource) × Nat :=
  if h : remote.length < scale then
    scaleUpLoop resource sub extra scale
      (remote ++ [⟨counter, counter + 1⟩])
      (to_send ++ [⟨resource, counter, counter + 1, sub, extra⟩])
      (counter + 2)
  else
    (remote, to_send, counter)
termination_by scale - remote.length
decreasing_by simp [List.length_append]; omega

/-- The instance handles of a reused or freshly built entry that survive the
extra-config comparison (lib.rs 257-265, which clears the list when the extra
config differs) and the `drain(scale..)` truncation (lib.rs 267-275). -/
def keptRemote (item : ExtractedItem SubCfg ExtraCfg)
    (cached : Cache SubCfg ExtraCfg Resource) : List RemoteDrop :=
  let remote0 := if item.extra = cached.extra_cfg then cached.remote else []
  if remote0.length > item.scale then remote0.take item.scale else remote0

/-- Finish one descriptor once a cache entry (reused or freshly built) is at
hand: keep the handles surviving the extra-config comparison and the
truncation, run the scale-up loop (lib.rs 277-299), and push the finished
entry onto `new_cache` (lib.rs 301). -/
def finishEntry (item : ExtractedItem SubCfg ExtraCfg)
    (cached : Cache SubCfg ExtraCfg Resource)
    (results : List (Diag SubCfg)) (st : PassState SubCfg ExtraCfg Resource) :
    PassState SubCfg ExtraCfg Resource :=
  let remote1 := keptRemote item cached
  let r := scaleUpLoop cached.resource item.sub item.extra item.scale remote1
    st.to_send st.counter
  { results := results
    new_cache := st.new_cache ++ [{ cached with remote := r.1 }]
    to_send := r.2.1
    counter := r.2.2 }

/-- The body of the per-descriptor loop of the validator (lib.rs 225-302):
merge the extraction diagnostics, look the descriptor up in the committed
cache, reuse the previous entry or build a fresh resource, and on build
failure record the diagnostic and skip the descriptor (`continue`). -/
def processSub (build : SubCfg → Except String Resource)
    (orig_cache : List (Cache SubCfg ExtraCfg Resource))
    (st : PassState SubCfg ExtraCfg Resource)
    (item : ExtractedItem SubCfg ExtraCfg) :
    PassState SubCfg ExtraCfg Resource :=
  let results := st.results ++ item.sub_results
  match orig_cache.find? (fun c => decide (c.sub_cfg = item.sub)) with
  | some previous => finishEntry item previous results st
  | none =>
    match build item.sub with
    | Except.ok resource =>
        finishEntry item ⟨item.sub, item.extra, resource, []⟩ results st
    | Except.error e =>
        { st with results := results ++ [Diag.buildError item.sub e] }

/-- One reconciliation pass: the validator body before the commit hook
(lib.rs 220-302), folding the loop body over the extracted items starting
from empty `results`, `new_cache` and `to_send`; `counter` is the next free
one-shot channel number when the pass starts. -/
def reconcilePass (build : SubCfg → Except String Resource)
    (orig_cache : List (Cache SubCfg ExtraCfg Resource)) (counter : Nat)
    (items : List (ExtractedItem SubCfg ExtraCfg)) :
    PassState SubCfg ExtraCfg Resource :=
  items.foldl (processSub build orig_cache) ⟨[], [], [], counter⟩

/-- Modelled from the spec: the commit hook is registered through
`ValidationResult::nothing().on_success(..)` (lib.rs 304-316), and the code
deciding whether the hook runs lives in spirit's validation module, which is
not among the given sources.  Per spec §4.2/§7, exactly when the pass as a
whole is accepted, every pending install is sent (in order) and the cache is
swapped; otherwise nothing is sent and the old cache stays authoritative. -/
def commitOutcome (accept : Bool)
    (orig_cache : List (Cache SubCfg ExtraCfg Resource))
    (st : PassState SubCfg ExtraCfg Resource) :
    List (Install SubCfg ExtraCfg Resource) × List (Cache SubCfg ExtraCfg Resource) :=
  if accept then (st.to_send, st.new_cache) else ([], orig_cache)

/-- A full reconciliation: run the pass, then commit or discard.  Returns
the installs actually sent and the cache that is committed afterwards. -/
def reconcile (build : SubCfg → Except String Resource)
    (orig_cache : List (Cache SubCfg ExtraCfg Resource)) (counter : Nat)
    (items : List (ExtractedItem SubCfg ExtraCfg)) (accept : Bool) :
    List (Install SubCfg ExtraCfg Resource) × List (Cache SubCfg ExtraCfg Resource) :=
  commitOutcome accept orig_cache (reconcilePass build orig_cache counter items)

/-! ## Closed forms for the scale-up loop -/

/-- The handles created by the scale-up loop when it runs `k` iterations and
its first one-shot allocation has number `c`. -/
def freshHandles (c : Nat) : Nat → List RemoteDrop
  | 0 => []
  | k + 1 => ⟨c, c + 1⟩ :: freshHandles (c + 2) k

/-- The install requests created by the scale-up loop when it runs `k`
iterations and its first one-shot allocation has number `c`. -/
def freshInstalls (resource : Resource) (sub : SubCfg) (extra : ExtraCfg)
    (c : Nat) : Nat → List (Install SubCfg ExtraCfg Resource)
  | 0 => []
  | k + 1 => ⟨resource, c, c + 1, sub, extra⟩ ::
      freshInstalls resource sub extra (c + 2) k

lemma freshHandles_length (c k : Nat) : (freshHandles c k).length = k := by
  induction k generalizing c with
  | zero => rfl
  | succ k ih => simp [freshHandles, ih]

lemma freshInstalls_length (resource : Resource) (sub : SubCfg) (extra : ExtraCfg)
    (c k : Nat) : (freshInstalls resource sub extra c k).length = k := by
  induction k generalizing c with
  | zero => rfl
  | succ k ih => simp [freshInstalls, ih]

lemma scaleUpLoop_eq (resource : Resource) (sub : SubCfg) (extra : ExtraCfg) (scale : Nat) :
    ∀ (k : Nat) (remote : List RemoteDrop)
      (to_send : List (Install SubCfg ExtraCfg Resource)) (counter : Nat),
      scale - remote.length = k →
      scaleUpLoop resource sub extra scale remote to_send counter =
        (remote ++ freshHandles counter k,
         to_send ++ freshInstalls resource sub extra counter k,
         counter + 2 * k) := by
  intro k
  induction k with
  | zero =>
    intro remote to_send counter hk
    rw [scaleUpLoop]
    have : ¬ remote.length < scale := by omega
    simp [this, freshHandles, freshInstalls]
  | succ k ih =>
    intro remote to_send counter hk
    have hlt : remote.length < scale := by omega
    rw [scaleUpLoop]
    simp only [hlt, dif_pos]
    have hrec := ih (remote ++ [⟨counter, counter + 1⟩])
      (to_send ++ [⟨resource, counter, counter + 1, sub, extra⟩]) (counter + 2)
      (by simp; omega)
    rw [hrec]
    show _ = (remote ++ (⟨counter, counter + 1⟩ :: freshHandles (counter + 2) k),
      to_send ++ (⟨resource, counter, counter + 1, sub, extra⟩ ::
        freshInstalls resource sub extra (counter + 2) k),
      counter + 2 * (k + 1))
    simp only [List.append_assoc, List.singleton_append, Prod.mk.injEq, true_and]
    omega

/-- The scale-up loop, in closed form. -/
lemma scaleUpLoop_closed (resource : Resource) (sub : SubCfg) (extra : ExtraCfg)
    (scale : Nat) (remote : List RemoteDrop)
    (to_send : List (Install SubCfg ExtraCfg Resource)) (counter : Nat) :
    scaleUpLoop resource sub extra scale remote to_send counter =
      (remote ++ freshHandles counter (scale - remote.length),
       to_send ++ freshInstalls resource sub extra counter (scale - remote.length),
       counter + 2 * (scale - remote.length)) :=
  scaleUpLoop_eq resource sub extra scale _ remote to_send counter rfl

/-! ## Characterizations of the loop body -/

/-- How many fresh instances the scale-up loop creates for an entry. -/
def growCount (item : ExtractedItem SubCfg ExtraCfg)
    (cached : Cache SubCfg ExtraCfg Resource) : Nat :=
  item.scale - (keptRemote item cached).length

lemma keptRemote_length_le (item : ExtractedItem SubCfg ExtraCfg)
    (cached : Cache SubCfg ExtraCfg Resource) :
    (keptRemote item cached).length ≤ item.scale := by
  by_cases hA : item.extra = cached.extra_cfg
  · simp only [keptRemote, hA, if_true]
    split
    · simp only [List.length_take]
      omega
    · omega
  · simp [keptRemote, hA]

lemma finishEntry_eq (item : ExtractedItem SubCfg ExtraCfg)
    (cached : Cache SubCfg ExtraCfg Resource)
    (results : List (Diag SubCfg)) (st : PassState SubCfg ExtraCfg Resource) :
    finishEntry item cached results st =
      { results := results
        new_cache := st.new_cache ++ [{ cached with
          remote := keptRemote item cached ++ freshHandles st.counter (growCount item cached) }]
        to_send := st.to_send ++
          freshInstalls cached.resource item.sub item.extra st.counter (growCount item cached)
        counter := st.counter + 2 * growCount item cached } := by
  simp only [finishEntry, growCount]
  rw [scaleUpLoop_closed]

/-- The length of the finished entry's instance list is exactly the desired
scale. -/
lemma keptRemote_add_growCount (item : ExtractedItem SubCfg ExtraCfg)
    (cached : Cache SubCfg ExtraCfg Resource) :
    (keptRemote item cached ++ freshHandles c (growCount item cached)).length
      = item.scale := by
  have h := keptRemote_length_le item cached
  simp only [List.length_append, freshHandles_length, growCount]
  omega

lemma processSub_found (build : SubCfg → Except String Resource)
    (orig_cache : List (Cache SubCfg ExtraCfg Resource))
    (st : PassState SubCfg ExtraCfg Resource) (item : ExtractedItem SubCfg ExtraCfg)
    (prev : Cache SubCfg ExtraCfg Resource)
    (hfind : orig_cache.find? (fun c => decide (c.sub_cfg = item.sub)) = some prev) :
    processSub build orig_cache st item =
      finishEntry item prev (st.results ++ item.sub_results) st := by
  unfold processSub
  rw [hfind]

lemma processSub_build_ok (build : SubCfg → Except String Resource)
    (orig_cache : List (Cache SubCfg ExtraCfg Resource))
    (st : PassState SubCfg ExtraCfg Resource) (item : ExtractedItem SubCfg ExtraCfg)
    (r : Resource)
    (hfind : orig_cache.find? (fun c => decide (c.sub_cfg = item.sub)) = none)
    (hbuild : build item.sub = Except.ok r) :
    processSub build orig_cache st item =
      finishEntry item ⟨item.sub, item.extra, r, []⟩ (st.results ++ item.sub_results) st := by
  unfold processSub
  rw [hfind, hbuild]

lemma processSub_build_err (build : SubCfg → Except String Resource)
    (orig_cache : List (Cache SubCfg ExtraCfg Resource))
    (st : PassState SubCfg ExtraCfg Resource) (item : ExtractedItem SubCfg ExtraCfg)
    (e : String)
    (hfind : orig_cache.find? (fun c => decide (c.sub_cfg = item.sub)) = none)
    (hbuild : build item.sub = Except.error e) :
    processSub build orig_cache st item =
      { st with results := st.results ++ item.sub_results ++ [Diag.buildError item.sub e] } := by
  unfold processSub
  rw [hfind, hbuild]

/-! ## Fold lemmas about a whole pass -/

variable {build : SubCfg → Except String Resource}
variable {orig_cache : List (Cache SubCfg ExtraCfg Resource)}

lemma processSub_counter_le (st : PassState SubCfg ExtraCfg Resource)
    (item : ExtractedItem SubCfg ExtraCfg) :
    st.counter ≤ (processSub build orig_cache st item).counter := by
  cases hfind : orig_cache.find? (fun c => decide (c.sub_cfg = item.sub)) with
  | some prev =>
    rw [processSub_found build orig_cache st item prev hfind, finishEntry_eq]
    exact Nat.le_add_right _ _
  | none =>
    cases hbuild : build item.sub with
    | ok r =>
      rw [processSub_build_ok build orig_cache st item r hfind hbuild, finishEntry_eq]
      exact Nat.le_add_right _ _
    | error e =>
      rw [processSub_build_err build orig_cache st item e hfind hbuild]

lemma processSub_new_cache_prefix (st : PassState SubCfg ExtraCfg Resource)
    (item : ExtractedItem SubCfg ExtraCfg) :
    ∃ t, (processSub build orig_cache st item).new_cache = st.new_cache ++ t := by
  cases hfind : orig_cache.find? (fun c => decide (c.sub_cfg = item.sub)) with
  | some prev =>
    rw [processSub_found build orig_cache st item prev hfind, finishEntry_eq]
    exact ⟨_, rfl⟩
  | none =>
    cases hbuild : build item.sub with
    | ok r =>
      rw [processSub_build_ok build orig_cache st item r hfind hbuild, finishEntry_eq]
      exact ⟨_, rfl⟩
    | error e =>
      rw [processSub_build_err build orig_cache st item e hfind hbuild]
      exact ⟨[], (List.append_nil _).symm⟩

lemma processSub_to_send_prefix (st : PassState SubCfg ExtraCfg Resource)
    (item : ExtractedItem SubCfg ExtraCfg) :
    ∃ t, (processSub build orig_cache st item).to_send = st.to_send ++ t := by
  cases hfind : orig_cache.find? (fun c => decide (c.sub_cfg = item.sub)) with
  | some prev =>
    rw [processSub_found build orig_cache st item prev hfind, finishEntry_eq]
    exact ⟨_, rfl⟩
  | none =>
    cases hbuild : build item.sub with
    | ok r =>
      rw [processSub_build_ok build orig_cache st item r hfind hbuild, finishEntry_eq]
      exact ⟨_, rfl⟩
    | error e =>
      rw [processSub_build_err build orig_cache st item e hfind hbuild]
      exact ⟨[], (List.append_nil _).symm⟩

lemma foldl_counter_le (items : List (ExtractedItem SubCfg ExtraCfg))
    (st : PassState SubCfg ExtraCfg Resource) :
    st.counter ≤ (items.foldl (processSub build orig_cache) st).counter := by
  induction items generalizing st with
  | nil => exact Nat.le_refl _
  | cons item rest ih =>
    exact Nat.le_trans (processSub_counter_le st item) (ih (processSub build orig_cache st item))

lemma foldl_new_cache_prefix (items : List (ExtractedItem SubCfg ExtraCfg))
    (st : PassState SubCfg ExtraCfg Resource) :
    ∃ t, (items.foldl (processSub build orig_cache) st).new_cache = st.new_cache ++ t := by
  induction items generalizing st with
  | nil => exact ⟨[], (List.append_nil _).symm⟩
  | cons item rest ih =>
    have hstep : ∃ t0, (processSub build orig_cache st item).new_cache = st.new_cache ++ t0 :=
      processSub_new_cache_prefix st item
    obtain ⟨t1, h1⟩ := hstep
    obtain ⟨t2, h2⟩ := ih (processSub build orig_cache st item)
    exact ⟨t1 ++ t2, by rw [List.foldl_cons, h2, h1, List.append_assoc]⟩

lemma foldl_to_send_prefix (items : List (ExtractedItem SubCfg ExtraCfg))
    (st : PassState SubCfg ExtraCfg Resource) :
    ∃ t, (items.foldl (processSub build orig_cache) st).to_send = st.to_send ++ t := by
  induction items generalizing st with
  | nil => exact ⟨[], (List.append_nil _).symm⟩
  | cons item rest ih =>
    have hstep : ∃ t0, (processSub build orig_cache st item).to_send = st.to_send ++ t0 :=
      processSub_to_send_prefix st item
    obtain ⟨t1, h1⟩ := hstep
    obtain ⟨t2, h2⟩ := ih (processSub build orig_cache st item)
    exact ⟨t1 ++ t2, by rw [List.foldl_cons, h2, h1, List.append_assoc]⟩

/-- The diagnostics that one item appends to the pass, independently of the
accumulated state: the item's own extraction diagnostics plus, when the
descriptor is new and fails to build, the build-error diagnostic. -/
def deltaResults (build : SubCfg → Except String Resource)
    (orig_cache : List (Cache SubCfg ExtraCfg Resource))
    (item : ExtractedItem SubCfg ExtraCfg) : List (Diag SubCfg) :=
  item.sub_results ++
    match orig_cache.find? (fun c => decide (c.sub_cfg = item.sub)) with
    | some _ => []
    | none =>
      match build item.sub with
      | Except.ok _ => []
      | Except.error e => [Diag.buildError item.sub e]

lemma processSub_results_eq (st : PassState SubCfg ExtraCfg Resource)
    (item : ExtractedItem SubCfg ExtraCfg) :
    (processSub build orig_cache st item).results =
      st.results ++ deltaResults build orig_cache item := by
  unfold deltaResults
  cases hfind : orig_cache.find? (fun c => decide (c.sub_cfg = item.sub)) with
  | some prev =>
    rw [processSub_found build orig_cache st item prev hfind, finishEntry_eq]
    simp
  | none =>
    cases hbuild : build item.sub with
    | ok r =>
      rw [processSub_build_ok build orig_cache st item r hfind hbuild, finishEntry_eq]
      simp
    | error e =>
      rw [processSub_build_err build orig_cache st item e hfind hbuild]
      simp

lemma foldl_results_eq (items : List (ExtractedItem SubCfg ExtraCfg))
    (st : PassState SubCfg ExtraCfg Resource) :
    (items.foldl (processSub build orig_cache) st).results =
      st.results ++ (items.map (deltaResults build orig_cache)).flatten := by
  induction items generalizing st with
  | nil => simp
  | cons item rest ih =>
    rw [List.foldl_cons, ih, processSub_results_eq]
    simp

/-- Everything of the pass state except the diagnostics. -/
def PassState.core (st : PassState SubCfg ExtraCfg Resource) :
    List (Cache SubCfg ExtraCfg Resource) × List (Install SubCfg ExtraCfg Resource) × Nat :=
  (st.new_cache, st.to_send, st.counter)

lemma processSub_core_congr {st1 st2 : PassState SubCfg ExtraCfg Resource}
    (item : ExtractedItem SubCfg ExtraCfg) (h : st1.core = st2.core) :
    (processSub build orig_cache st1 item).core =
      (processSub build orig_cache st2 item).core := by
  have h1 : st1.new_cache = st2.new_cache := congrArg Prod.fst h
  have h2 : st1.to_send = st2.to_send := congrArg (fun p => p.2.1) h
  have h3 : st1.counter = st2.counter := congrArg (fun p => p.2.2) h
  cases hfind : orig_cache.find? (fun c => decide (c.sub_cfg = item.sub)) with
  | some prev =>
    rw [processSub_found build orig_cache st1 item prev hfind,
      processSub_found build orig_cache st2 item prev hfind,
      finishEntry_eq, finishEntry_eq]
    simp [PassState.core, h1, h2, h3]
  | none =>
    cases hbuild : build item.sub with
    | ok r =>
      rw [processSub_build_ok build orig_cache st1 item r hfind hbuild,
        processSub_build_ok build orig_cache st2 item r hfind hbuild,
        finishEntry_eq, finishEntry_eq]
      simp [PassState.core, h1, h2, h3]
    | error e =>
      rw [processSub_build_err build orig_cache st1 item e hfind hbuild,
        processSub_build_err build orig_cache st2 item e hfind hbuild]
      simpa [PassState.core] using ⟨h1, h2, h3⟩

lemma foldl_core_congr (items : List (ExtractedItem SubCfg ExtraCfg))
    {st1 st2 : PassState SubCfg ExtraCfg Resource} (h : st1.core = st2.core) :
    (items.foldl (processSub build orig_cache) st1).core =
      (items.foldl (processSub build orig_cache) st2).core := by
  induction items generalizing st1 st2 with
  | nil => exact h
  | cons item rest ih =>
    exact ih (processSub_core_congr item h)

lemma keptRemote_of_extra_eq {item : ExtractedItem SubCfg ExtraCfg}
    {cached : Cache SubCfg ExtraCfg Resource} (hx : item.extra = cached.extra_cfg) :
    keptRemote item cached =
      if cached.remote.length > item.scale then cached.remote.take item.scale
      else cached.remote := by
  simp [keptRemote, hx]

lemma keptRemote_of_extra_ne {item : ExtractedItem SubCfg ExtraCfg}
    {cached : Cache SubCfg ExtraCfg Resource} (hx : ¬ item.extra = cached.extra_cfg) :
    keptRemote item cached = [] := by
  simp [keptRemote, hx]

lemma freshHandles_le {c k : Nat} {h : RemoteDrop} (hh : h ∈ freshHandles c k) :
    c ≤ h.request_drop := by
  induction k generalizing c with
  | zero => simp [freshHandles] at hh
  | succ k ih =>
    simp only [freshHandles, List.mem_cons] at hh
    rcases hh with rfl | hh
    · exact Nat.le_refl _
    · exact Nat.le_trans (by omega) (ih hh)

lemma mem_take_index {α : Type u} {l : List α} {s : Nat} {a : α}
    (hh : a ∈ l.take s) :
    ∃ j, ∃ hj : j < l.length, l.get ⟨j, hj⟩ = a ∧ j < s := by
  obtain ⟨⟨j, hj⟩, hget⟩ := List.mem_iff_get.mp hh
  have hj2 : j < l.length ∧ j < s := by
    simp only [List.length_take] at hj
    omega
  refine ⟨j, hj2.1, ?_, hj2.2⟩
  rw [← hget, List.get_eq_getElem, List.get_eq_getElem, List.getElem_take]

/-- Provenance of one step: every entry of the new cache after one loop
iteration either was already there, or stems from the processed item; in the
latter case its descriptor is the item's, its instance count is the item's
scale, and each of its handles is either fresh (allocated at or after the
state's counter) or is one of the first `scale` handles of the entry the
cache lookup found, with the extra configs agreeing. -/
lemma processSub_entry_spec (st : PassState SubCfg ExtraCfg Resource)
    (item : ExtractedItem SubCfg ExtraCfg)
    (e : Cache SubCfg ExtraCfg Resource)
    (he : e ∈ (processSub build orig_cache st item).new_cache) :
    e ∈ st.new_cache ∨
      (e.sub_cfg = item.sub ∧ e.remote.length = item.scale ∧
        ∀ h ∈ e.remote,
          st.counter ≤ h.request_drop ∨
          ∃ prev, orig_cache.find? (fun c => decide (c.sub_cfg = item.sub)) = some prev ∧
            item.extra = prev.extra_cfg ∧ e.extra_cfg = prev.extra_cfg ∧
            ∃ j, ∃ hj : j < prev.remote.length,
              prev.remote.get ⟨j, hj⟩ = h ∧ j < item.scale) := by
  cases hfind : orig_cache.find? (fun c => decide (c.sub_cfg = item.sub)) with
  | some prev =>
    rw [processSub_found build orig_cache st item prev hfind, finishEntry_eq] at he
    rw [List.mem_append] at he
    rcases he with he | he
    · exact Or.inl he
    · right
      rw [List.mem_singleton] at he
      subst he
      have hsub : prev.sub_cfg = item.sub := by
        have := List.find?_some hfind
        simpa using this
      refine ⟨hsub, keptRemote_add_growCount item prev, ?_⟩
      intro h hh
      rw [List.mem_append] at hh
      rcases hh with hh | hh
      · -- a kept handle: the extra configs agree and it sits below `scale`
        by_cases hx : item.extra = prev.extra_cfg
        · right
          refine ⟨prev, rfl, hx, rfl, ?_⟩
          rw [keptRemote_of_extra_eq hx] at hh
          by_cases hgt : prev.remote.length > item.scale
          · rw [if_pos hgt] at hh
            exact mem_take_index hh
          · rw [if_neg hgt] at hh
            obtain ⟨⟨j, hj⟩, hget⟩ := List.mem_iff_get.mp hh
            exact ⟨j, hj, hget, by omega⟩
        · rw [keptRemote_of_extra_ne hx] at hh
          exact absurd hh (List.not_mem_nil h)
      · exact Or.inl (freshHandles_le hh)
  | none =>
    cases hbuild : build item.sub with
    | ok r =>
      rw [processSub_build_ok build orig_cache st item r hfind hbuild, finishEntry_eq] at he
      rw [List.mem_append] at he
      rcases he with he | he
      · exact Or.inl he
      · right
        rw [List.mem_singleton] at he
        subst he
        refine ⟨rfl, keptRemote_add_growCount item _, ?_⟩
        intro h hh
        rw [List.mem_append] at hh
        rcases hh with hh | hh
        · simp [keptRemote] at hh
        · exact Or.inl (freshHandles_le hh)
    | error e2 =>
      rw [processSub_build_err build orig_cache st item e2 hfind hbuild] at he
      exact Or.inl he

/-- Provenance over a whole pass: every cache entry produced by the fold
stems from one of the items, with the same guarantees as in
`processSub_entry_spec`. -/
lemma foldl_entry_spec (items : List (ExtractedItem SubCfg ExtraCfg))
    (st : PassState SubCfg ExtraCfg Resource)
    (e : Cache SubCfg ExtraCfg Resource)
    (he : e ∈ (items.foldl (processSub build orig_cache) st).new_cache) :
    e ∈ st.new_cache ∨
      ∃ it ∈ items, e.sub_cfg = it.sub ∧ e.remote.length = it.scale ∧
        ∀ h ∈ e.remote,
          st.counter ≤ h.request_drop ∨
          ∃ prev, orig_cache.find? (fun c => decide (c.sub_cfg = it.sub)) = some prev ∧
            it.extra = prev.extra_cfg ∧ e.extra_cfg = prev.extra_cfg ∧
            ∃ j, ∃ hj : j < prev.remote.length,
              prev.remote.get ⟨j, hj⟩ = h ∧ j < it.scale := by
  induction items generalizing st with
  | nil => exact Or.inl he
  | cons item rest ih =>
    rw [List.foldl_cons] at he
    rcases ih (processSub build orig_cache st item) he with hin | ⟨it, hit, h1, h2, h3⟩
    · rcases processSub_entry_spec st item e hin with hin2 | ⟨h1, h2, h3⟩
      · exact Or.inl hin2
      · exact Or.inr ⟨item, List.mem_cons_self _ _, h1, h2, h3⟩
    · refine Or.inr ⟨it, List.mem_cons_of_mem _ hit, h1, h2, ?_⟩
      intro h hh
      rcases h3 h hh with hc | hold
      · exact Or.inl (Nat.le_trans (processSub_counter_le st item) hc)
      · exact Or.inr hold

/-! ## Claim C2: commit-or-discard atomicity -/

/-- Claim C2: on a rejected pass no install request is sent and the
previously committed cache stays; on an accepted pass, and only then, the
queued installs of the whole pass are sent and the cache is replaced by the
newly computed one.  Moreover installs accumulate over the whole pass:
the installs of the first descriptors are still in the queue after the
remaining descriptors are processed, so nothing is handed to the installer
until the complete pass is accepted. -/
theorem c2_commit_or_discard (build : SubCfg → Except String Resource)
    (orig_cache : List (Cache SubCfg ExtraCfg Resource)) (counter : Nat)
    (items : List (ExtractedItem SubCfg ExtraCfg)) :
    reconcile build orig_cache counter items false = ([], orig_cache) ∧
    reconcile build orig_cache counter items true =
      ((reconcilePass build orig_cache counter items).to_send,
       (reconcilePass build orig_cache counter items).new_cache) ∧
    ∀ l1 l2 : List (ExtractedItem SubCfg ExtraCfg), ∃ rest,
      (reconcilePass build orig_cache counter (l1 ++ l2)).to_send =
        (reconcilePass build orig_cache counter l1).to_send ++ rest := by
  refine ⟨rfl, rfl, ?_⟩
  intro l1 l2
  unfold reconcilePass
  rw [List.foldl_append]
  exact foldl_to_send_prefix l2 _

/-! ## Scale policies (`Scaled`, `Scale`, `Singleton`, lib.rs 402-449) -/

/-- The `Scale` configuration fragment (lib.rs 415-419): a user-supplied
instance count. -/
structure Scale where
  scale : Nat
deriving DecidableEq, Repr

/-- `Scale::scaled` (lib.rs 427-436): a positive configured count is used as
is with no diagnostics; a zero count is coerced to one instance with a
warning.  The diagnostic type is generic only because our `Diag` carries the
descriptor type. -/
def Scale.scaled (s : Scale) (S : Type u) (name : String) : Nat × List (Diag S) :=
  if s.scale > 0 then (s.scale, [])
  else (1, [Diag.warning ("Turning scale in " ++ name ++ " from 0 to 1")])

/-- The `Singleton` marker fragment (lib.rs 442-443). -/
structure Singleton where
deriving DecidableEq, Repr

/-- `Singleton::scaled` (lib.rs 445-449): always one instance, no
diagnostics. -/
def Singleton.scaled (_s : Singleton) (S : Type u) (_name : String) :
    Nat × List (Diag S) :=
  (1, [])

/-- The two standard `Scaled` implementations, as a closed sum used by the
extraction model. -/
inductive ScaleMode where
  | fixedCount (c : Scale)
  | one (c : Singleton)
deriving DecidableEq, Repr

/-- Dispatch of `Scaled::scaled` over the two standard implementations. -/
def ScaleMode.scaled (m : ScaleMode) (S : Type u) (name : String) :
    Nat × List (Diag S) :=
  match m with
  | .fixedCount c => c.scaled S name
  | .one c => c.scaled S name

lemma scaleMode_scaled_pos (m : ScaleMode) (S : Type u) (name : String) :
    1 ≤ (m.scaled S name).1 := by
  cases m with
  | fixedCount c =>
    simp only [ScaleMode.scaled, Scale.scaled]
    split <;> omega
  | one c => exact Nat.le_refl _

/-- One socket configuration fragment as consumed by the extraction step of
`TcpListen::helper` / `UdpListen::helper` (lib.rs 578-585, 717-724): the
descriptor (`listen`), the scale policy and the extra config. -/
structure ListenFragment (SubCfg : Type u) (ExtraCfg : Type v) where
  listen : SubCfg
  scaleMode : ScaleMode
  extra_cfg : ExtraCfg
deriving DecidableEq

/-- The extraction step (lib.rs 579-584, 719-723): ask the scale policy for
the desired count and its diagnostics and bundle one item for the
reconciler. -/
def extractFragment (name : String) (c : ListenFragment SubCfg ExtraCfg) :
    ExtractedItem SubCfg ExtraCfg :=
  let p := c.scaleMode.scaled SubCfg name
  ⟨c.listen, c.extra_cfg, p.1, p.2⟩

/-- Claim C6: the fixed scale policy maps a positive configured count `n` to
`(n, no diagnostics)` and a zero count to `(1, exactly one warning)`; the
singleton policy always returns `(1, no diagnostics)`; consequently either
policy's desired count is at least 1 for every configured value.  (Both are
Lean functions of their input, hence trivially pure and deterministic.) -/
theorem c6_scale_policy_contract (name : String) (n : Nat) (hn : 0 < n) :
    Scale.scaled ⟨n⟩ Nat name = (n, []) ∧
    Scale.scaled ⟨0⟩ Nat name =
      (1, [Diag.warning ("Turning scale in " ++ name ++ " from 0 to 1")]) ∧
    Singleton.scaled ⟨⟩ Nat name = (1, []) ∧
    (∀ m : Nat, 1 ≤ (Scale.scaled ⟨m⟩ Nat name).1) ∧
    (∀ s : Singleton, (Singleton.scaled s Nat name).1 = 1) := by
  refine ⟨?_, rfl, rfl, ?_, fun s => rfl⟩
  · simp [Scale.scaled, hn]
  · intro m
    simp only [Scale.scaled]
    split <;> omega

/-- Witness for C6 at `n = 3`. -/
theorem c6_scale_policy_contract_witness :
    Scale.scaled ⟨3⟩ Nat "listener" = (3, []) ∧
    Scale.scaled ⟨0⟩ Nat "listener" =
      (1, [Diag.warning ("Turning scale in " ++ "listener" ++ " from 0 to 1")]) ∧
    Singleton.scaled ⟨⟩ Nat "listener" = (1, []) ∧
    (∀ m : Nat, 1 ≤ (Scale.scaled ⟨m⟩ Nat "listener").1) ∧
    (∀ s : Singleton, (Singleton.scaled s Nat "listener").1 = 1) :=
  c6_scale_policy_contract "listener" 3 (by decide)

/-- Claim C3: after an accepted reconciliation pass over items extracted
through a scale policy, every entry of the committed cache has exactly as
many instance handles as the policy requested for its descriptor, and that
count is at least 1. -/
theorem c3_scale_convergence (build : SubCfg → Except String Resource)
    (orig_cache : List (Cache SubCfg ExtraCfg Resource)) (counter : Nat)
    (name : String) (fragments : List (ListenFragment SubCfg ExtraCfg))
    (entry : Cache SubCfg ExtraCfg Resource)
    (hmem : entry ∈
      (reconcile build orig_cache counter (fragments.map (extractFragment name)) true).2) :
    1 ≤ entry.remote.length ∧
    ∃ f ∈ fragments, f.listen = entry.sub_cfg ∧
      entry.remote.length = (f.scaleMode.scaled SubCfg name).1 := by
  have hmem2 : entry ∈
      (reconcilePass build orig_cache counter (fragments.map (extractFragment name))).new_cache := hmem
  unfold reconcilePass at hmem2
  rcases foldl_entry_spec _ _ entry hmem2 with hin | ⟨it, hit, h1, h2, _⟩
  · exact absurd hin (List.not_mem_nil entry)
  · obtain ⟨f, hf, hfe⟩ := List.mem_map.mp hit
    subst hfe
    refine ⟨?_, f, hf, ?_, ?_⟩
    · rw [h2]
      exact scaleMode_scaled_pos f.scaleMode SubCfg name
    · exact h1.symm
    · exact h2

/-- Witness for C3: one fragment with fixed scale 2 over an empty cache
produces one committed entry with two handles. -/
theorem c3_scale_convergence_witness :
    1 ≤ (⟨7, 9, 7, [⟨0, 1⟩, ⟨2, 3⟩]⟩ : Cache Nat Nat Nat).remote.length ∧
    ∃ f ∈ [(⟨7, ScaleMode.fixedCount ⟨2⟩, 9⟩ : ListenFragment Nat Nat)],
      f.listen = (⟨7, 9, 7, [⟨0, 1⟩, ⟨2, 3⟩]⟩ : Cache Nat Nat Nat).sub_cfg ∧
      (⟨7, 9, 7, [⟨0, 1⟩, ⟨2, 3⟩]⟩ : Cache Nat Nat Nat).remote.length =
        (f.scaleMode.scaled Nat "w").1 :=
  c3_scale_convergence (fun s => Except.ok s) [] 0 "w"
    [⟨7, ScaleMode.fixedCount ⟨2⟩, 9⟩] ⟨7, 9, 7, [⟨0, 1⟩, ⟨2, 3⟩]⟩
    (by
      show (⟨7, 9, 7, [⟨0, 1⟩, ⟨2, 3⟩]⟩ : Cache Nat Nat Nat) ∈
        (List.foldl (processSub (fun s => Except.ok s) []) ⟨[], [], [], 0⟩
          [⟨7, 9, 2, []⟩]).new_cache
      rw [List.foldl_cons, List.foldl_nil,
        processSub_build_ok (fun s => Except.ok s) [] ⟨[], [], [], 0⟩ ⟨7, 9, 2, []⟩ 7 rfl rfl,
        finishEntry_eq]
      exact List.mem_append_right _ (List.mem_singleton.mpr rfl))

/-! ## Claims C7 and C9: per-entry scale adjustment and extra-config frame -/

lemma freshInstalls_map_pair (resource : Resource) (sub : SubCfg) (extra : ExtraCfg) :
    ∀ (c k : Nat),
      (freshInstalls resource sub extra c k).map (fun i => (i.drop_req, i.confirm_drop)) =
      (freshHandles c k).map (fun h => (h.request_drop, h.drop_confirmed)) := by
  intro c k
  induction k generalizing c with
  | zero => rfl
  | succ k ih => simp [freshInstalls, freshHandles, ih]

lemma freshInstalls_mem {resource : Resource} {sub : SubCfg} {extra : ExtraCfg} :
    ∀ {c k : Nat} {i : Install SubCfg ExtraCfg Resource},
      i ∈ freshInstalls resource sub extra c k →
      i.resource = resource ∧ i.extra_conf = extra ∧ c ≤ i.drop_req ∧
        i.confirm_drop = i.drop_req + 1 := by
  intro c k
  induction k generalizing c with
  | zero => intro i hi; exact absurd hi (List.not_mem_nil i)
  | succ k ih =>
    intro i hi
    simp only [freshInstalls, List.mem_cons] at hi
    rcases hi with rfl | hi
    · exact ⟨rfl, rfl, Nat.le_refl _, rfl⟩
    · obtain ⟨h1, h2, h3, h4⟩ := ih hi
      exact ⟨h1, h2, by omega, h4⟩

lemma freshHandles_mem {c k : Nat} {h : RemoteDrop} (hh : h ∈ freshHandles c k) :
    c ≤ h.request_drop ∧ h.request_drop < c + 2 * k ∧
      h.drop_confirmed = h.request_drop + 1 := by
  induction k generalizing c with
  | zero => exact absurd hh (List.not_mem_nil h)
  | succ k ih =>
    simp only [freshHandles, List.mem_cons] at hh
    rcases hh with rfl | hh
    · exact ⟨Nat.le_refl _, by show c < c + 2 * (k + 1); omega, rfl⟩
    · obtain ⟨h1, h2, h3⟩ := ih hh
      exact ⟨by omega, by omega, h3⟩

lemma freshHandles_request_nodup : ∀ (c k : Nat),
    ((freshHandles c k).map RemoteDrop.request_drop).Nodup := by
  intro c k
  induction k generalizing c with
  | zero => exact List.nodup_nil
  | succ k ih =>
    simp only [freshHandles, List.map_cons]
    refine List.nodup_cons.mpr ⟨?_, ih (c + 2)⟩
    intro hmem
    obtain ⟨h, hh, hreq⟩ := List.mem_map.mp hmem
    have := (freshHandles_mem hh).1
    omega

lemma freshHandles_nodup (c k : Nat) : (freshHandles c k).Nodup :=
  (freshHandles_request_nodup c k).of_map _

/-- Claim C7: for a cache entry reused with unchanged extra config, when the
instance list is at least as long as the desired scale, exactly the tail
(positions at and beyond the scale) is removed while the first `scale`
handles are kept in order and no installs are queued; when it is shorter,
exactly `scale - length` install requests are appended, each carrying a
clone of the entry's shared resource and a fresh one-shot channel pair, with
the matching new handle appended to the entry, fresh pairs being pairwise
distinct and allocated at or after the pass counter. -/
theorem c7_scale_adjustment (build : SubCfg → Except String Resource)
    (orig_cache : List (Cache SubCfg ExtraCfg Resource))
    (st : PassState SubCfg ExtraCfg Resource) (item : ExtractedItem SubCfg ExtraCfg)
    (prev : Cache SubCfg ExtraCfg Resource)
    (hfind : orig_cache.find? (fun c => decide (c.sub_cfg = item.sub)) = some prev)
    (hextra : item.extra = prev.extra_cfg) :
    (item.scale ≤ prev.remote.length →
      processSub build orig_cache st item =
        { results := st.results ++ item.sub_results
          new_cache := st.new_cache ++ [{ prev with remote := prev.remote.take item.scale }]
          to_send := st.to_send
          counter := st.counter }) ∧
    (prev.remote.length < item.scale →
      processSub build orig_cache st item =
        { results := st.results ++ item.sub_results
          new_cache := st.new_cache ++ [{ prev with
            remote := prev.remote ++ freshHandles st.counter (item.scale - prev.remote.length) }]
          to_send := st.to_send ++
            freshInstalls prev.resource item.sub item.extra st.counter
              (item.scale - prev.remote.length)
          counter := st.counter + 2 * (item.scale - prev.remote.length) }) ∧
    (∀ c k, (freshInstalls prev.resource item.sub item.extra c k).length = k) ∧
    (∀ c k,
      (freshInstalls prev.resource item.sub item.extra c k).map
          (fun i => (i.drop_req, i.confirm_drop)) =
        (freshHandles c k).map (fun h => (h.request_drop, h.drop_confirmed))) ∧
    (∀ c k i, i ∈ freshInstalls prev.resource item.sub item.extra c k →
      i.resource = prev.resource ∧ i.extra_conf = item.extra ∧ c ≤ i.drop_req ∧
        i.confirm_drop = i.drop_req + 1) ∧
    (∀ c k, ((freshHandles c k).map RemoteDrop.request_drop).Nodup) := by
  refine ⟨?_, ?_, fun c k => freshInstalls_length _ _ _ c k,
    fun c k => freshInstalls_map_pair _ _ _ c k,
    fun c k i hi => freshInstalls_mem hi,
    fun c k => freshHandles_request_nodup c k⟩
  · intro hle
    have hkept : keptRemote item prev = prev.remote.take item.scale := by
      rw [keptRemote_of_extra_eq hextra]
      by_cases hgt : prev.remote.length > item.scale
      · rw [if_pos hgt]
      · rw [if_neg hgt, List.take_of_length_le (by omega)]
    have hgc : growCount item prev = 0 := by
      unfold growCount
      rw [hkept]
      simp only [List.length_take]
      omega
    rw [processSub_found build orig_cache st item prev hfind, finishEntry_eq, hkept, hgc]
    simp [freshHandles, freshInstalls]
  · intro hlt
    have hkept : keptRemote item prev = prev.remote := by
      rw [keptRemote_of_extra_eq hextra, if_neg (by omega)]
    have hgc : growCount item prev = item.scale - prev.remote.length := by
      unfold growCount
      rw [hkept]
    rw [processSub_found build orig_cache st item prev hfind, finishEntry_eq, hkept, hgc]

/-- Witness for C7: a cached entry with three instances scaled down to two,
in a one-entry cache. -/
theorem c7_scale_adjustment_witness :
    ((⟨5, 8, 2, []⟩ : ExtractedItem Nat Nat).scale ≤
        (⟨5, 8, 5, [⟨0, 1⟩, ⟨2, 3⟩, ⟨4, 5⟩]⟩ : Cache Nat Nat Nat).remote.length →
      processSub (fun s => Except.ok s) [⟨5, 8, 5, [⟨0, 1⟩, ⟨2, 3⟩, ⟨4, 5⟩]⟩]
          ⟨[], [], [], 6⟩ ⟨5, 8, 2, []⟩ =
        { results := ([] : List (Diag Nat)) ++ ([] : List (Diag Nat))
          new_cache := [] ++ [{ (⟨5, 8, 5, [⟨0, 1⟩, ⟨2, 3⟩, ⟨4, 5⟩]⟩ : Cache Nat Nat Nat) with
            remote := [⟨0, 1⟩, ⟨2, 3⟩, ⟨4, 5⟩].take 2 }]
          to_send := []
          counter := 6 }) ∧
    ((⟨5, 8, 5, [⟨0, 1⟩, ⟨2, 3⟩, ⟨4, 5⟩]⟩ : Cache Nat Nat Nat).remote.length <
        (⟨5, 8, 2, []⟩ : ExtractedItem Nat Nat).scale →
      processSub (fun s => Except.ok s) [⟨5, 8, 5, [⟨0, 1⟩, ⟨2, 3⟩, ⟨4, 5⟩]⟩]
          ⟨[], [], [], 6⟩ ⟨5, 8, 2, []⟩ =
        { results := ([] : List (Diag Nat)) ++ ([] : List (Diag Nat))
          new_cache := [] ++ [{ (⟨5, 8, 5, [⟨0, 1⟩, ⟨2, 3⟩, ⟨4, 5⟩]⟩ : Cache Nat Nat Nat) with
            remote := [⟨0, 1⟩, ⟨2, 3⟩, ⟨4, 5⟩] ++ freshHandles 6 (2 - 3) }]
          to_send := [] ++ freshInstalls 5 5 8 6 (2 - 3)
          counter := 6 + 2 * (2 - 3) }) ∧
    (∀ c k, (freshInstalls 5 5 8 c k).length = k) ∧
    (∀ c k,
      ((freshInstalls 5 5 8 c k : List (Install Nat Nat Nat))).map
          (fun i => (i.drop_req, i.confirm_drop)) =
        (freshHandles c k).map (fun h => (h.request_drop, h.drop_confirmed))) ∧
    (∀ c k i, i ∈ freshInstalls 5 5 8 c k →
      i.resource = 5 ∧ i.extra_conf = 8 ∧ c ≤ i.drop_req ∧
        i.confirm_drop = i.drop_req + 1) ∧
    (∀ c k, ((freshHandles c k).map RemoteDrop.request_drop).Nodup) :=
  c7_scale_adjustment (fun s => Except.ok s) [⟨5, 8, 5, [⟨0, 1⟩, ⟨2, 3⟩, ⟨4, 5⟩]⟩]
    ⟨[], [], [], 6⟩ ⟨5, 8, 2, []⟩ ⟨5, 8, 5, [⟨0, 1⟩, ⟨2, 3⟩, ⟨4, 5⟩]⟩ rfl rfl

/-- Claim C9: when a pass reuses an entry and the extracted extra config
differs from the cached one, the accumulated entry keeps the *old* cached
extra config (only its instance list is cleared and refilled with fresh
handles), while the outgoing install requests carry the *new* extra config;
a freshly built entry, in contrast, stores the currently extracted extra
config. -/
theorem c9_extra_config_frame (build : SubCfg → Except String Resource)
    (orig_cache : List (Cache SubCfg ExtraCfg Resource))
    (st : PassState SubCfg ExtraCfg Resource) (item : ExtractedItem SubCfg ExtraCfg) :
    (∀ prev, orig_cache.find? (fun c => decide (c.sub_cfg = item.sub)) = some prev →
      ¬ item.extra = prev.extra_cfg →
      processSub build orig_cache st item =
        { results := st.results ++ item.sub_results
          new_cache := st.new_cache ++
            [⟨prev.sub_cfg, prev.extra_cfg, prev.resource, freshHandles st.counter item.scale⟩]
          to_send := st.to_send ++
            freshInstalls prev.resource item.sub item.extra st.counter item.scale
          counter := st.counter + 2 * item.scale }) ∧
    (∀ r, orig_cache.find? (fun c => decide (c.sub_cfg = item.sub)) = none →
      build item.sub = Except.ok r →
      processSub build orig_cache st item =
        { results := st.results ++ item.sub_results
          new_cache := st.new_cache ++
            [⟨item.sub, item.extra, r, freshHandles st.counter item.scale⟩]
          to_send := st.to_send ++ freshInstalls r item.sub item.extra st.counter item.scale
          counter := st.counter + 2 * item.scale }) := by
  constructor
  · intro prev hfind hx
    have hkept : keptRemote item prev = [] := keptRemote_of_extra_ne hx
    have hgc : growCount item prev = item.scale := by
      unfold growCount
      rw [hkept]
      rfl
    rw [processSub_found build orig_cache st item prev hfind, finishEntry_eq, hkept, hgc]
    rfl
  · intro r hfind hbuild
    have hkept : keptRemote item ⟨item.sub, item.extra, r, []⟩ = [] := by
      simp [keptRemote]
    have hgc : growCount item ⟨item.sub, item.extra, r, []⟩ = item.scale := by
      unfold growCount
      rw [hkept]
      rfl
    rw [processSub_build_ok build orig_cache st item r hfind hbuild, finishEntry_eq,
      hkept, hgc]
    rfl

/-- Witness for C9: a one-entry cache whose extra config 8 differs from the
extracted extra config 9, and a fresh build for a new descriptor. -/
theorem c9_extra_config_frame_witness :
    (∀ prev, ([⟨5, 8, 5, [⟨0, 1⟩]⟩] : List (Cache Nat Nat Nat)).find?
        (fun c => decide (c.sub_cfg = (⟨5, 9, 1, []⟩ : ExtractedItem Nat Nat).sub)) = some prev →
      ¬ (⟨5, 9, 1, []⟩ : ExtractedItem Nat Nat).extra = prev.extra_cfg →
      processSub (fun s => Except.ok s) [⟨5, 8, 5, [⟨0, 1⟩]⟩] ⟨[], [], [], 2⟩ ⟨5, 9, 1, []⟩ =
        { results := ([] : List (Diag Nat)) ++ ([] : List (Diag Nat))
          new_cache := [] ++ [⟨prev.sub_cfg, prev.extra_cfg, prev.resource, freshHandles 2 1⟩]
          to_send := [] ++ freshInstalls prev.resource 5 9 2 1
          counter := 2 + 2 * 1 }) ∧
    (∀ r, ([⟨5, 8, 5, [⟨0, 1⟩]⟩] : List (Cache Nat Nat Nat)).find?
        (fun c => decide (c.sub_cfg = (⟨5, 9, 1, []⟩ : ExtractedItem Nat Nat).sub)) = none →
      (fun s => (Except.ok s : Except String Nat)) 5 = Except.ok r →
      processSub (fun s => Except.ok s) [⟨5, 8, 5, [⟨0, 1⟩]⟩] ⟨[], [], [], 2⟩ ⟨5, 9, 1, []⟩ =
        { results := ([] : List (Diag Nat)) ++ ([] : List (Diag Nat))
          new_cache := [] ++ [⟨5, 9, r, freshHandles 2 1⟩]
          to_send := [] ++ freshInstalls r 5 9 2 1
          counter := 2 + 2 * 1 }) :=
  c9_extra_config_frame (fun s => Except.ok s) [⟨5, 8, 5, [⟨0, 1⟩]⟩] ⟨[], [], [], 2⟩ ⟨5, 9, 1, []⟩

/-! ## Claim C5: build-failure isolation -/

/-- Does a diagnostic record a build failure for descriptor `s`? -/
def isBuildErrorFor (s : SubCfg) : Diag SubCfg → Bool
  | .buildError s2 _ => decide (s2 = s)
  | .warning _ => false

/-- Number of build-failure diagnostics recorded for descriptor `s`. -/
def countFor (s : SubCfg) (l : List (Diag SubCfg)) : Nat :=
  (l.filter (isBuildErrorFor s)).length

lemma countFor_append (s : SubCfg) (a b : List (Diag SubCfg)) :
    countFor s (a ++ b) = countFor s a + countFor s b := by
  simp [countFor, List.filter_append]

lemma countFor_eq_zero {s : SubCfg} {l : List (Diag SubCfg)}
    (h : ∀ d ∈ l, isBuildErrorFor s d = false) : countFor s l = 0 := by
  unfold countFor
  rw [List.filter_eq_nil_iff.mpr (by simpa using h)]
  rfl

lemma countFor_flatten_zero {s : SubCfg} {ls : List (List (Diag SubCfg))}
    (h : ∀ l ∈ ls, countFor s l = 0) : countFor s ls.flatten = 0 := by
  induction ls with
  | nil => rfl
  | cons a rest ih =>
    rw [List.flatten_cons, countFor_append, h a (List.mem_cons_self _ _),
      ih (fun l hl => h l (List.mem_cons_of_mem _ hl))]

lemma countFor_delta_zero {build : SubCfg → Except String Resource}
    {orig_cache : List (Cache SubCfg ExtraCfg Resource)} {s : SubCfg}
    {it : ExtractedItem SubCfg ExtraCfg}
    (hsub : ¬ it.sub = s)
    (hclean : ∀ d ∈ it.sub_results, isBuildErrorFor s d = false) :
    countFor s (deltaResults build orig_cache it) = 0 := by
  unfold deltaResults
  rw [countFor_append, countFor_eq_zero hclean]
  cases hfind : orig_cache.find? (fun c => decide (c.sub_cfg = it.sub)) with
  | some prev => rfl
  | none =>
    cases hbuild : build it.sub with
    | ok r => rfl
    | error e => simp [countFor, List.filter, isBuildErrorFor, hsub]

/-- Claim C5: a descriptor that is new to the cache and whose build fails
contributes exactly one build-failure diagnostic tied to itself, contributes
no cache entry, and leaves the entries and install requests produced for the
other descriptors of the pass exactly as they would have been without the
failing descriptor. -/
theorem c5_build_failure_isolation (build : SubCfg → Except String Resource)
    (orig_cache : List (Cache SubCfg ExtraCfg Resource)) (counter : Nat)
    (l1 l2 : List (ExtractedItem SubCfg ExtraCfg)) (bad : ExtractedItem SubCfg ExtraCfg)
    (e : String)
    (hfind : orig_cache.find? (fun c => decide (c.sub_cfg = bad.sub)) = none)
    (hbuild : build bad.sub = Except.error e)
    (hsub : ∀ it ∈ l1 ++ l2, ¬ it.sub = bad.sub)
    (hclean : ∀ it ∈ l1 ++ bad :: l2, ∀ d ∈ it.sub_results,
      isBuildErrorFor bad.sub d = false) :
    (reconcilePass build orig_cache counter (l1 ++ bad :: l2)).new_cache =
      (reconcilePass build orig_cache counter (l1 ++ l2)).new_cache ∧
    (reconcilePass build orig_cache counter (l1 ++ bad :: l2)).to_send =
      (reconcilePass build orig_cache counter (l1 ++ l2)).to_send ∧
    countFor bad.sub (reconcilePass build orig_cache counter (l1 ++ bad :: l2)).results
      = 1 ∧
    ∀ entry ∈ (reconcilePass build orig_cache counter (l1 ++ bad :: l2)).new_cache,
      ¬ entry.sub_cfg = bad.sub := by
  have hcore : (reconcilePass build orig_cache counter (l1 ++ bad :: l2)).core =
      (reconcilePass build orig_cache counter (l1 ++ l2)).core := by
    unfold reconcilePass
    rw [List.foldl_append, List.foldl_append, List.foldl_cons]
    apply foldl_core_congr
    rw [processSub_build_err build orig_cache _ bad e hfind hbuild]
    rfl
  have hnc : (reconcilePass build orig_cache counter (l1 ++ bad :: l2)).new_cache =
      (reconcilePass build orig_cache counter (l1 ++ l2)).new_cache :=
    congrArg Prod.fst hcore
  refine ⟨hnc, congrArg (fun p => p.2.1) hcore, ?_, ?_⟩
  · unfold reconcilePass
    rw [foldl_results_eq]
    show countFor bad.sub ([] ++ ((l1 ++ bad :: l2).map
      (deltaResults build orig_cache)).flatten) = 1
    rw [List.nil_append, List.map_append, List.map_cons, List.flatten_append,
      List.flatten_cons, countFor_append, countFor_append]
    have hz1 : countFor bad.sub ((l1.map (deltaResults build orig_cache)).flatten) = 0 := by
      apply countFor_flatten_zero
      intro l hl
      obtain ⟨it, hit, rfl⟩ := List.mem_map.mp hl
      exact countFor_delta_zero (hsub it (List.mem_append_left _ hit))
        (hclean it (List.mem_append_left _ hit))
    have hz2 : countFor bad.sub ((l2.map (deltaResults build orig_cache)).flatten) = 0 := by
      apply countFor_flatten_zero
      intro l hl
      obtain ⟨it, hit, rfl⟩ := List.mem_map.mp hl
      exact countFor_delta_zero (hsub it (List.mem_append_right _ hit))
        (hclean it (List.mem_append_right _ (List.mem_cons_of_mem _ hit)))
    have hone : countFor bad.sub (deltaResults build orig_cache bad) = 1 := by
      unfold deltaResults
      rw [hfind, hbuild, countFor_append,
        countFor_eq_zero (hclean bad (List.mem_append_right _ (List.mem_cons_self _ _)))]
      simp [countFor, List.filter, isBuildErrorFor]
    rw [hz1, hz2, hone]
  · intro entry hmem
    rw [hnc] at hmem
    rcases foldl_entry_spec _ _ entry hmem with hin | ⟨it, hit, h1, _, _⟩
    · exact absurd hin (List.not_mem_nil entry)
    · rw [h1]
      exact hsub it hit

/-- Witness for C5: descriptor 0 fails to build while descriptor 1 builds;
the pass over both equals the pass over descriptor 1 alone, with exactly one
diagnostic for descriptor 0. -/
theorem c5_build_failure_isolation_witness :
    (reconcilePass
        (fun s => if s = 0 then (Except.error "boom" : Except String Nat) else Except.ok s)
        [] 0 ([⟨1, 0, 1, []⟩] ++ ⟨0, 0, 1, []⟩ :: [])).new_cache =
      (reconcilePass
        (fun s => if s = 0 then (Except.error "boom" : Except String Nat) else Except.ok s)
        [] 0 ([⟨1, 0, 1, []⟩] ++ [])).new_cache ∧
    (reconcilePass
        (fun s => if s = 0 then (Except.error "boom" : Except String Nat) else Except.ok s)
        [] 0 ([⟨1, 0, 1, []⟩] ++ ⟨0, 0, 1, []⟩ :: [])).to_send =
      (reconcilePass
        (fun s => if s = 0 then (Except.error "boom" : Except String Nat) else Except.ok s)
        [] 0 ([⟨1, 0, 1, []⟩] ++ [])).to_send ∧
    countFor (0 : Nat)
      (reconcilePass
        (fun s => if s = 0 then (Except.error "boom" : Except String Nat) else Except.ok s)
        [] 0 ([⟨1, 0, 1, []⟩] ++ ⟨0, 0, 1, []⟩ :: [])).results = 1 ∧
    ∀ entry ∈ (reconcilePass
        (fun s => if s = 0 then (Except.error "boom" : Except String Nat) else Except.ok s)
        [] 0 ([⟨1, 0, 1, []⟩] ++ ⟨0, 0, 1, []⟩ :: [])).new_cache,
      ¬ entry.sub_cfg = (0 : Nat) :=
  c5_build_failure_isolation
    (fun s => if s = 0 then (Except.error "boom" : Except String Nat) else Except.ok s)
    [] 0 [⟨1, 0, 1, []⟩] [] ⟨0, 0, 1, []⟩ "boom" rfl rfl (by decide) (by decide)

/-! ## Claim C4: idempotence of reconciliation fails on the code -/

/-- Claim C4 (exhibit of the violation): the validator never updates
`cached.extra_cfg` when reusing an entry (lib.rs 257-265 clears the
instances but keeps the old extra config, see C9), so after one extra-config
change the committed entry's stored extra config stays stale forever.  A
cache with a stale extra config is reachable (first two conjuncts: an entry
is created under extra config 0, then the configuration changes the extra
config to 1), and then *every* further pass with the identical configuration
clears and recreates the entry's instances: the second run with the same
items sends another install request and commits a different cache,
contradicting idempotence. -/
theorem c4_idempotence_violation :
    reconcile (fun s => (Except.ok s : Except String Nat)) [] 0 [⟨0, 0, 1, []⟩] true
      = ([⟨0, 0, 1, 0, 0⟩], [⟨0, 0, 0, [⟨0, 1⟩]⟩]) ∧
    reconcile (fun s => (Except.ok s : Except String Nat))
        [⟨0, 0, 0, [⟨0, 1⟩]⟩] 2 [⟨0, 1, 1, []⟩] true
      = ([⟨0, 2, 3, 0, 1⟩], [⟨0, 0, 0, [⟨2, 3⟩]⟩]) ∧
    reconcile (fun s => (Except.ok s : Except String Nat))
        [⟨0, 0, 0, [⟨2, 3⟩]⟩] 4 [⟨0, 1, 1, []⟩] true
      = ([⟨0, 4, 5, 0, 1⟩], [⟨0, 0, 0, [⟨4, 5⟩]⟩]) ∧
    ([⟨0, 4, 5, 0, 1⟩] : List (Install Nat Nat Nat)) ≠ [] ∧
    ([⟨0, 0, 0, [⟨4, 5⟩]⟩] : List (Cache Nat Nat Nat)) ≠ [⟨0, 0, 0, [⟨2, 3⟩]⟩] := by
  have h1 : reconcilePass (fun s => (Except.ok s : Except String Nat)) [] 0 [⟨0, 0, 1, []⟩]
      = ⟨[], [⟨0, 0, 0, [⟨0, 1⟩]⟩], [⟨0, 0, 1, 0, 0⟩], 2⟩ := by
    unfold reconcilePass
    rw [List.foldl_cons, List.foldl_nil,
      processSub_build_ok (fun s => Except.ok s) [] ⟨[], [], [], 0⟩ ⟨0, 0, 1, []⟩ 0 rfl rfl,
      finishEntry_eq]
    rfl
  have h2 : reconcilePass (fun s => (Except.ok s : Except String Nat))
        [⟨0, 0, 0, [⟨0, 1⟩]⟩] 2 [⟨0, 1, 1, []⟩]
      = ⟨[], [⟨0, 0, 0, [⟨2, 3⟩]⟩], [⟨0, 2, 3, 0, 1⟩], 4⟩ := by
    unfold reconcilePass
    rw [List.foldl_cons, List.foldl_nil,
      processSub_found (fun s => Except.ok s) [⟨0, 0, 0, [⟨0, 1⟩]⟩] ⟨[], [], [], 2⟩
        ⟨0, 1, 1, []⟩ ⟨0, 0, 0, [⟨0, 1⟩]⟩ (by rfl),
      finishEntry_eq]
    rfl
  have h3 : reconcilePass (fun s => (Except.ok s : Except String Nat))
        [⟨0, 0, 0, [⟨2, 3⟩]⟩] 4 [⟨0, 1, 1, []⟩]
      = ⟨[], [⟨0, 0, 0, [⟨4, 5⟩]⟩], [⟨0, 4, 5, 0, 1⟩], 6⟩ := by
    unfold reconcilePass
    rw [List.foldl_cons, List.foldl_nil,
      processSub_found (fun s => Except.ok s) [⟨0, 0, 0, [⟨2, 3⟩]⟩] ⟨[], [], [], 4⟩
        ⟨0, 1, 1, []⟩ ⟨0, 0, 0, [⟨2, 3⟩]⟩ (by rfl),
      finishEntry_eq]
    rfl
  refine ⟨?_, ?_, ?_, by decide, by decide⟩
  · unfold reconcile
    rw [h1]
    rfl
  · unfold reconcile
    rw [h2]
    rfl
  · unfold reconcile
    rw [h3]
    rfl

/-! ## Claim C8: singleton registration (`src/helpers.rs` 254-281) -/

/-- `spirit::Builder`, reduced to its `singletons: HashSet<TypeId>` component
(src/helpers.rs); type ids are modelled as numbers. -/
structure Builder where
  singletons : List Nat
deriving DecidableEq, Repr

/-- `Builder::singleton` (helpers.rs 254-256): record the type id, returning
whether this is the first call with it, together with the updated builder
(the method mutates `self` in the source). -/
def Builder.singleton (b : Builder) (t : Nat) : Bool × Builder :=
  if t ∈ b.singletons then (false, b)
  else (true, { b with singletons := t :: b.singletons })

/-- `Builder::with_singleton` (helpers.rs 274-281): apply the helper only
when its type has not been registered yet, otherwise return the builder
unchanged. -/
def Builder.with_singleton (b : Builder) (t : Nat) (helper : Builder → Builder) : Builder :=
  let s := b.singleton t
  if s.1 then helper s.2 else s.2

/-- Claim C8: `singleton` answers `true` exactly on the first call with a
given type id and `false` on every later call; `with_singleton` applies the
helper only on the first registration of the type and returns the builder
unchanged otherwise — so the default `Runtime` registered by
`Task::apply` via `with_singleton(Runtime::default())` (lib.rs 322) is a
no-op whenever a runtime variant was registered before. -/
theorem c8_first_registration_wins (b : Builder) (t : Nat)
    (helper : Builder → Builder) :
    (t ∉ b.singletons →
      (b.singleton t).1 = true ∧
      b.with_singleton t helper = helper ⟨t :: b.singletons⟩) ∧
    (((b.singleton t).2).singleton t).1 = false ∧
    (t ∈ b.singletons →
      (b.singleton t).1 = false ∧ b.with_singleton t helper = b) := by
  refine ⟨?_, ?_, ?_⟩
  · intro hnot
    constructor
    · simp [Builder.singleton, hnot]
    · simp [Builder.with_singleton, Builder.singleton, hnot]
  · by_cases hmem : t ∈ b.singletons
    · simp [Builder.singleton, hmem]
    · simp [Builder.singleton, hmem]
  · intro hmem
    constructor
    · simp [Builder.singleton, hmem]
    · simp [Builder.with_singleton, Builder.singleton, hmem]

/-- Witness for C8 at a builder that already holds type id 4 but not 3. -/
theorem c8_first_registration_wins_witness :
    ((3 : Nat) ∉ [4] →
      ((⟨[4]⟩ : Builder).singleton 3).1 = true ∧
      (⟨[4]⟩ : Builder).with_singleton 3 (fun b => ⟨0 :: b.singletons⟩) =
        (fun b => ⟨0 :: b.singletons⟩) (⟨3 :: [4]⟩ : Builder)) ∧
    ((((⟨[4]⟩ : Builder).singleton 3).2).singleton 3).1 = false ∧
    ((3 : Nat) ∈ [4] →
      ((⟨[4]⟩ : Builder).singleton 3).1 = false ∧
      (⟨[4]⟩ : Builder).with_singleton 3 (fun b => ⟨0 :: b.singletons⟩) = ⟨[4]⟩) :=
  c8_first_registration_wins ⟨[4]⟩ 3 (fun b => ⟨0 :: b.singletons⟩)

/-! ## Claim C10: handle sharing between consecutive caches and the swap -/

/-- All instance handles held by a cache. -/
def cacheHandles (cache : List (Cache SubCfg ExtraCfg Resource)) : List RemoteDrop :=
  (cache.map Cache.remote).flatten

/-- Models the Rust drop semantics of the cache swap `*cache.lock() =
new_cache` (lib.rs 314): assigning drops the old vector, which drops each
`Arc<RemoteDrop>` clone it holds; a handle's blocking destructor
(`RemoteDrop::drop`) runs exactly when that clone was the last one, i.e.
when the handle is not shared with the new cache. -/
def droppedAtSwap (old new : List (Cache SubCfg ExtraCfg Resource)) :
    List RemoteDrop :=
  (cacheHandles old).filter (fun h => decide (h ∉ cacheHandles new))

lemma mem_cacheHandles_iff {cache : List (Cache SubCfg ExtraCfg Resource)}
    {h : RemoteDrop} :
    h ∈ cacheHandles cache ↔ ∃ e ∈ cache, h ∈ e.remote := by
  unfold cacheHandles
  rw [List.mem_flatten]
  constructor
  · rintro ⟨s, hs, hh⟩
    obtain ⟨e, he, rfl⟩ := List.mem_map.mp hs
    exact ⟨e, he, hh⟩
  · rintro ⟨e, he, hh⟩
    exact ⟨e.remote, List.mem_map_of_mem _ he, hh⟩

lemma mem_cacheHandles {cache : List (Cache SubCfg ExtraCfg Resource)}
    {e : Cache SubCfg ExtraCfg Resource} {h : RemoteDrop}
    (he : e ∈ cache) (hh : h ∈ e.remote) : h ∈ cacheHandles cache :=
  mem_cacheHandles_iff.mpr ⟨e, he, hh⟩

lemma cacheHandles_append (a b : List (Cache SubCfg ExtraCfg Resource)) :
    cacheHandles (a ++ b) = cacheHandles a ++ cacheHandles b := by
  unfold cacheHandles
  rw [List.map_append, List.flatten_append]

lemma cacheHandles_entry_nodup {cache : List (Cache SubCfg ExtraCfg Resource)}
    (hnd : (cacheHandles cache).Nodup) {e : Cache SubCfg ExtraCfg Resource}
    (he : e ∈ cache) : e.remote.Nodup := by
  induction cache with
  | nil => cases he
  | cons a rest ih =>
    have hnd2 : (a.remote ++ cacheHandles rest).Nodup := by
      simpa [cacheHandles] using hnd
    obtain ⟨h1, h2, _⟩ := List.nodup_append.mp hnd2
    rcases List.mem_cons.mp he with rfl | he2
    · exact h1
    · exact ih h2 he2

lemma cacheHandles_unique {cache : List (Cache SubCfg ExtraCfg Resource)}
    (hnd : (cacheHandles cache).Nodup) {e1 e2 : Cache SubCfg ExtraCfg Resource}
    (h1 : e1 ∈ cache) (h2 : e2 ∈ cache) {h : RemoteDrop}
    (m1 : h ∈ e1.remote) (m2 : h ∈ e2.remote) : e1 = e2 := by
  induction cache with
  | nil => cases h1
  | cons a rest ih =>
    have hnd2 : (a.remote ++ cacheHandles rest).Nodup := by
      simpa [cacheHandles] using hnd
    obtain ⟨_, hrest, hdisj⟩ := List.nodup_append.mp hnd2
    rcases List.mem_cons.mp h1 with rfl | h1b
    · rcases List.mem_cons.mp h2 with rfl | h2b
      · rfl
      · exact absurd (mem_cacheHandles h2b m2) (fun hc => hdisj m1 hc)
    · rcases List.mem_cons.mp h2 with rfl | h2b
      · exact absurd (mem_cacheHandles h1b m1) (fun hc => hdisj m2 hc)
      · exact ih hrest h1b h2b

/-- With pairwise distinct descriptors, the cache lookup of an entry's own
descriptor returns that entry. -/
lemma find?_eq_self_of_nodup {orig_cache : List (Cache SubCfg ExtraCfg Resource)}
    (hnd : (orig_cache.map Cache.sub_cfg).Nodup)
    {e : Cache SubCfg ExtraCfg Resource} (he : e ∈ orig_cache) :
    orig_cache.find? (fun c => decide (c.sub_cfg = e.sub_cfg)) = some e := by
  induction orig_cache with
  | nil => cases he
  | cons a rest ih =>
    rcases List.mem_cons.mp he with rfl | he2
    · exact List.find?_cons_of_pos _ (by simp)
    · have hnd2 : (∀ x ∈ rest, ¬ x.sub_cfg = a.sub_cfg) ∧
          (rest.map Cache.sub_cfg).Nodup := by simpa using hnd
      have hne : ¬ a.sub_cfg = e.sub_cfg := fun hEq => hnd2.1 e he2 hEq.symm
      rw [List.find?_cons_of_neg _ (by simpa using hne)]
      exact ih hnd2.2 he2

lemma mem_cacheHandles_foldl_mono {build : SubCfg → Except String Resource}
    {orig_cache : List (Cache SubCfg ExtraCfg Resource)}
    (items : List (ExtractedItem SubCfg ExtraCfg))
    (st : PassState SubCfg ExtraCfg Resource) {h : RemoteDrop}
    (hh : h ∈ cacheHandles st.new_cache) :
    h ∈ cacheHandles (items.foldl (processSub build orig_cache) st).new_cache := by
  have hpre : ∃ t, (items.foldl (processSub build orig_cache) st).new_cache =
      st.new_cache ++ t := foldl_new_cache_prefix items st
  obtain ⟨t, ht⟩ := hpre
  rw [ht, cacheHandles_append]
  exact List.mem_append_left _ hh

/-- A handle of a reused entry whose position lies below the desired scale
(with unchanged extra config) is carried over into the cache computed by the
pass, whichever item of the pass matches the entry. -/
lemma handle_kept {build : SubCfg → Except String Resource}
    {orig_cache : List (Cache SubCfg ExtraCfg Resource)} :
    ∀ (items : List (ExtractedItem SubCfg ExtraCfg))
      (st : PassState SubCfg ExtraCfg Resource)
      (it : ExtractedItem SubCfg ExtraCfg) (prev : Cache SubCfg ExtraCfg Resource)
      (i : Nat) (hi : i < prev.remote.length),
      it ∈ items →
      orig_cache.find? (fun c => decide (c.sub_cfg = it.sub)) = some prev →
      it.extra = prev.extra_cfg → i < it.scale →
      prev.remote.get ⟨i, hi⟩ ∈
        cacheHandles (items.foldl (processSub build orig_cache) st).new_cache := by
  intro items
  induction items with
  | nil => intro st it prev i hi hmem; cases hmem
  | cons head rest ih =>
    intro st it prev i hi hmem hfind hextra hscale
    rw [List.foldl_cons]
    rcases List.mem_cons.mp hmem with rfl | hmem2
    · -- the head item processes exactly this entry: the handle is in the
      -- pushed entry's kept prefix, and later items only append entries
      apply mem_cacheHandles_foldl_mono
      rw [processSub_found build orig_cache st it prev hfind, finishEntry_eq]
      have hkept : prev.remote.get ⟨i, hi⟩ ∈ keptRemote it prev := by
        rw [keptRemote_of_extra_eq hextra]
        by_cases hgt : prev.remote.length > it.scale
        · rw [if_pos hgt]
          have hlen : i < (prev.remote.take it.scale).length := by
            simp only [List.length_take]
            omega
          have : (prev.remote.take it.scale).get ⟨i, hlen⟩ = prev.remote.get ⟨i, hi⟩ := by
            rw [List.get_eq_getElem, List.get_eq_getElem, List.getElem_take]
          rw [← this]
          exact List.get_mem _ i hlen
        · rw [if_neg hgt]
          exact List.get_mem _ i hi
      apply mem_cacheHandles (e := { prev with
        remote := keptRemote it prev ++ freshHandles st.counter (growCount it prev) })
      · exact List.mem_append_right _ (List.mem_singleton.mpr rfl)
      · exact List.mem_append_left _ hkept
    · exact ih (processSub build orig_cache st head) it prev i hi hmem2 hfind hextra hscale

/-- Claim C10: instance handles are shared by value between consecutive
caches.  (1) Every non-fresh handle of the newly computed cache is literally
one of the handles of an old entry with the same descriptor; (2) the cache
swap never runs the blocking destructor for a handle that carried over;
(3) with pairwise distinct descriptors and handles in the committed cache, a
handle at position `i` of an old entry is torn down by the swap exactly when
no extracted item reuses the entry (same descriptor, same extra config) with
a desired scale above `i` — covering removed descriptors, the truncated tail
on scale-down and the handles cleared by an extra-config change. -/
theorem c10_handle_sharing (build : SubCfg → Except String Resource)
    (orig_cache : List (Cache SubCfg ExtraCfg Resource)) (counter : Nat)
    (items : List (ExtractedItem SubCfg ExtraCfg))
    (hids : ∀ h ∈ cacheHandles orig_cache, h.request_drop < counter)
    (hnodupH : (cacheHandles orig_cache).Nodup)
    (hnodupS : (orig_cache.map Cache.sub_cfg).Nodup) :
    (∀ e2 ∈ (reconcilePass build orig_cache counter items).new_cache,
      ∀ h ∈ e2.remote, h.request_drop < counter →
        ∃ e ∈ orig_cache, e.sub_cfg = e2.sub_cfg ∧ h ∈ e.remote) ∧
    (∀ h ∈ cacheHandles (reconcilePass build orig_cache counter items).new_cache,
      h ∉ droppedAtSwap orig_cache
        (reconcilePass build orig_cache counter items).new_cache) ∧
    (∀ e ∈ orig_cache, ∀ i, ∀ hi : i < e.remote.length,
      (e.remote.get ⟨i, hi⟩ ∈ droppedAtSwap orig_cache
          (reconcilePass build orig_cache counter items).new_cache
        ↔ ¬ ∃ it ∈ items, it.sub = e.sub_cfg ∧ it.extra = e.extra_cfg ∧
            i < it.scale)) := by
  refine ⟨?_, ?_, ?_⟩
  · intro e2 he2 h hh hlt
    unfold reconcilePass at he2
    rcases foldl_entry_spec _ _ e2 he2 with hin | ⟨it, hit, hsub, hlen, hH⟩
    · exact absurd hin (List.not_mem_nil e2)
    · rcases hH h hh with hc | ⟨prev, hfind, hx1, hx2, j, hj, hget, hjs⟩
      · have hc2 : counter ≤ h.request_drop := hc
        omega
      · refine ⟨prev, List.mem_of_find?_eq_some hfind, ?_, ?_⟩
        · have hps : prev.sub_cfg = it.sub := by simpa using List.find?_some hfind
          rw [hps, ← hsub]
        · rw [← hget]
          exact List.get_mem _ j hj
  · intro h hh hdrop
    unfold droppedAtSwap at hdrop
    rw [List.mem_filter] at hdrop
    exact (by simpa using hdrop.2 : h ∉ _) hh
  · intro e he i hi
    constructor
    · intro hdrop hex
      obtain ⟨it, hit, h1, h2, h3⟩ := hex
      have hfind2 : orig_cache.find? (fun c => decide (c.sub_cfg = it.sub)) = some e := by
        simp only [h1]
        exact find?_eq_self_of_nodup hnodupS he
      have hker : e.remote.get ⟨i, hi⟩ ∈ cacheHandles
          (items.foldl (processSub build orig_cache) ⟨[], [], [], counter⟩).new_cache :=
        handle_kept items ⟨[], [], [], counter⟩ it e i hi hit hfind2 h2 h3
      unfold droppedAtSwap at hdrop
      rw [List.mem_filter] at hdrop
      exact (by simpa using hdrop.2 : e.remote.get ⟨i, hi⟩ ∉ _) hker
    · intro hne
      unfold droppedAtSwap
      rw [List.mem_filter]
      refine ⟨mem_cacheHandles he (List.get_mem _ i hi), ?_⟩
      rw [decide_eq_true_eq]
      intro hmem
      obtain ⟨e2, he2, hh2⟩ := mem_cacheHandles_iff.mp hmem
      have hlt : (e.remote.get ⟨i, hi⟩).request_drop < counter :=
        hids _ (mem_cacheHandles he (List.get_mem _ i hi))
      unfold reconcilePass at he2
      rcases foldl_entry_spec _ _ e2 he2 with hin | ⟨it, hit, hsub, hlen, hH⟩
      · exact absurd hin (List.not_mem_nil e2)
      · rcases hH _ hh2 with hc | ⟨prev, hfind, hx1, hx2, j, hj, hget, hjs⟩
        · have hc2 : counter ≤ (e.remote.get ⟨i, hi⟩).request_drop := hc
          omega
        · have hprevmem := List.mem_of_find?_eq_some hfind
          have hprevsub : prev.sub_cfg = it.sub := by simpa using List.find?_some hfind
          have hpe : prev = e := cacheHandles_unique hnodupH hprevmem he
            (by rw [← hget]; exact List.get_mem _ j hj) (List.get_mem _ i hi)
          subst hpe
          have hnd_e : prev.remote.Nodup := cacheHandles_entry_nodup hnodupH he
          have hij : j = i := by
            have hinj := List.nodup_iff_injective_get.mp hnd_e
            have hfin : (⟨j, hj⟩ : Fin prev.remote.length) = ⟨i, hi⟩ := hinj hget
            exact congrArg Fin.val hfin
          exact hne ⟨it, hit, hprevsub.symm, hx1, hij ▸ hjs⟩

/-- Witness for C10: a one-entry cache reconciled against an empty
configuration — the descriptor disappeared, so its handle is exactly what
the swap tears down. -/
theorem c10_handle_sharing_witness :
    (∀ e2 ∈ (reconcilePass (fun s => (Except.ok s : Except String Nat))
        [⟨0, 5, 3, [⟨0, 1⟩]⟩] 2 []).new_cache,
      ∀ h ∈ e2.remote, h.request_drop < 2 →
        ∃ e ∈ [(⟨0, 5, 3, [⟨0, 1⟩]⟩ : Cache Nat Nat Nat)],
          e.sub_cfg = e2.sub_cfg ∧ h ∈ e.remote) ∧
    (∀ h ∈ cacheHandles (reconcilePass (fun s => (Except.ok s : Except String Nat))
        [⟨0, 5, 3, [⟨0, 1⟩]⟩] 2 []).new_cache,
      h ∉ droppedAtSwap [⟨0, 5, 3, [⟨0, 1⟩]⟩]
        (reconcilePass (fun s => (Except.ok s : Except String Nat))
          [⟨0, 5, 3, [⟨0, 1⟩]⟩] 2 []).new_cache) ∧
    (∀ e ∈ [(⟨0, 5, 3, [⟨0, 1⟩]⟩ : Cache Nat Nat Nat)], ∀ i, ∀ hi : i < e.remote.length,
      (e.remote.get ⟨i, hi⟩ ∈ droppedAtSwap [⟨0, 5, 3, [⟨0, 1⟩]⟩]
          (reconcilePass (fun s => (Except.ok s : Except String Nat))
            [⟨0, 5, 3, [⟨0, 1⟩]⟩] 2 []).new_cache
        ↔ ¬ ∃ it ∈ ([] : List (ExtractedItem Nat Nat)),
            it.sub = e.sub_cfg ∧ it.extra = e.extra_cfg ∧ i < it.scale)) :=
  c10_handle_sharing (fun s => Except.ok s) [⟨0, 5, 3, [⟨0, 1⟩]⟩] 2 []
    (by decide) (by decide) (by decide)

end SpiritVerify
